import Mathlib

/-!
Verification development for the passshare repository.

The repository's files each contain the current revision followed by older
revisions of the same file (separated by a marker).  The definitions below
embed the current revision of each file, identified by signature consistency:
`src/lib/kv.ts` (typed fail-closed rate limiter, GETDEL one-shot store),
`src/app/api/retrieve/[id]/route.ts` (the variant that validates the id
before rate limiting and calls the typed `checkRateLimit`),
`src/lib/schemas.ts` (`secretIdSchema = z.string().length(21)`),
`src/lib/password-generator.ts` (rejection-sampled draws), and the
client-side crypto utilities (`base64UrlEncode` / `base64UrlDecode`,
`combineIvAndCiphertext` / `separateIvAndCiphertext`).

Modelling conventions:
* JavaScript strings are modelled through their character sequences
  (`String` / `List Char`); byte sequences (`Uint8Array`, `ArrayBuffer`)
  are `List Nat` with entries `< 256`.
* The single clock is in milliseconds (`Date.now()`); Redis TTLs given in
  seconds are converted at the call sites exactly as the source does.
* The Vercel KV backend is modelled as a function from the key space to
  entries; a transport/timeout failure of an individual KV call is
  modelled by an error schedule (which call sites raise), mirroring the
  `try { ... } catch { ... }` structure of the source.
* `JSON.stringify`/`JSON.parse` of a `StoredSecret` round-trips, so stored
  values are kept in structured form.
-/

namespace PassShare

/-! ### Secret store (src/lib/kv.ts, current revision, lines 8-67) -/

/-- `StoredSecret` from src/lib/kv.ts: the value persisted under a secret id. -/
structure StoredSecret where
  encryptedData : String
  createdAt : Nat
deriving DecidableEq, Repr

/-- `SECRET_TTL = 24 * 60 * 60` seconds (src/lib/kv.ts line 14). -/
def SECRET_TTL : Nat := 24 * 60 * 60

/-- A transport or timeout error raised by a KV call. -/
inductive KVError where
  | transport
  | timeout
deriving DecidableEq, Repr

/-- State of the secret keyspace: each key maps to a stored value together
with its absolute expiry time in milliseconds. -/
def SecretState : Type := String → Option (StoredSecret × Nat)

/-- The empty store: no id ever existed. -/
def emptySecretState : SecretState := fun _ => none

/-- Key construction `secret:${secretId}` (src/lib/kv.ts line 23/42). -/
def secretKey (secretId : String) : String := "secret:" ++ secretId

/-- `kv.setex(key, ttl, value)` at time `now` (ms): stores the value with
absolute expiry `now + ttl seconds`. -/
def kvSetex (st : SecretState) (key : String) (ttl : Nat) (v : StoredSecret)
    (now : Nat) : SecretState :=
  fun k => if k = key then some (v, now + ttl * 1000) else st k

/-- `kv.getdel(key)` at time `now`: atomically reads and removes the entry.
An entry whose expiry has passed is indistinguishable from an absent one
(Redis enforces TTL expiry in the store itself). -/
def kvGetdel (st : SecretState) (key : String) (now : Nat) :
    Option StoredSecret × SecretState :=
  match st key with
  | none => (none, st)
  | some (v, e) =>
      if now < e then (some v, fun k => if k = key then none else st k)
      else (none, fun k => if k = key then none else st k)

/-- `storeSecret` (src/lib/kv.ts lines 21-34): persists the envelope under
`secret:${secretId}` with the fixed 24-hour TTL.  The nanoid generation is
abstracted to the given `secretId`. -/
def storeSecret (st : SecretState) (secretId : String) (encryptedData : String)
    (now : Nat) : String × SecretState :=
  (secretId, kvSetex st (secretKey secretId) SECRET_TTL ⟨encryptedData, now⟩ now)

/-- The body of `retrieveAndDeleteSecret` applied to the outcome of the
`kv.getdel` call: the surrounding `try/catch` turns every store error into
`null`, and a `null`/absent read is returned as `null` (src/lib/kv.ts
lines 44-66). -/
def retrieveAndDeleteSecretFromRead
    (read : Except KVError (Option StoredSecret)) : Option StoredSecret :=
  match read with
  | .error _ => none
  | .ok none => none
  | .ok (some v) => some v

/-- `retrieveAndDeleteSecret` (src/lib/kv.ts lines 41-67) against an honest
(non-erroring) store at time `now`: one atomic GETDEL. -/
def retrieveAndDeleteSecret (st : SecretState) (secretId : String) (now : Nat) :
    Option StoredSecret × SecretState :=
  let r := kvGetdel st (secretKey secretId) now
  (retrieveAndDeleteSecretFromRead (.ok r.1), r.2)

/-- Run a sequence of `retrieveAndDeleteSecret` calls for the same id at the
given times, collecting the results. -/
def runTakes (st : SecretState) (secretId : String) :
    List Nat → List (Option StoredSecret)
  | [] => []
  | t :: ts =>
      let r := retrieveAndDeleteSecret st secretId t
      r.1 :: runTakes r.2 secretId ts

/-! ### Rate limiter (src/lib/kv.ts, current revision, lines 72-132) -/

/-- `RateLimitType = 'share' | 'retrieve'` (src/lib/kv.ts line 72). -/
inductive RateLimitType where
  | share
  | retrieve
deriving DecidableEq, Repr

/-- The string used in the KV key for a rate-limit type. -/
def rateLimitTypeStr : RateLimitType → String
  | .share => "share"
  | .retrieve => "retrieve"

/-- Key construction `rate_limit:${type}:${identifier}` (src/lib/kv.ts
line 89). -/
def rateLimitKey (ty : RateLimitType) (identifier : String) : String :=
  "rate_limit:" ++ rateLimitTypeStr ty ++ ":" ++ identifier

/-- State of the rate-limit keyspace: count plus optional absolute expiry
time in milliseconds (`none` = key persists without TTL). -/
def RateState : Type := String → Option (Nat × Option Nat)

/-- The empty rate-limit keyspace. -/
def emptyRateState : RateState := fun _ => none

/-- A rate entry as observed at time `now`: entries whose expiry has passed
are absent (Redis TTL semantics). -/
def rateEntryLive (e : Option (Nat × Option Nat)) (now : Nat) :
    Option (Nat × Option Nat) :=
  match e with
  | some (c, some exp) => if now < exp then some (c, some exp) else none
  | x => x

/-- `kv.incr(key)`: atomic increment-and-read; creates the key with value 1
and no TTL when absent or expired. -/
def kvIncr (st : RateState) (key : String) (now : Nat) : Nat × RateState :=
  match rateEntryLive (st key) now with
  | none => (1, fun k => if k = key then some (1, none) else st k)
  | some (c, e) => (c + 1, fun k => if k = key then some (c + 1, e) else st k)

/-- `kv.expire(key, window)` at time `now`: sets the key's expiry to
`now + window` seconds; a no-op on an absent key. -/
def kvExpire (st : RateState) (key : String) (window now : Nat) : RateState :=
  match rateEntryLive (st key) now with
  | none => st
  | some (c, _) =>
      fun k => if k = key then some (c, some (now + window * 1000)) else st k

/-- `kv.ttl(key)` at time `now`: remaining whole seconds, `-1` for a key
without expiry, `-2` for an absent key. -/
def kvTtl (st : RateState) (key : String) (now : Nat) : Int :=
  match rateEntryLive (st key) now with
  | none => -2
  | some (_, none) => -1
  | some (_, some e) => ((e - now) / 1000 : Nat)

/-- The result record of `checkRateLimit` (src/lib/kv.ts line 87). -/
structure RateLimitResult where
  allowed : Bool
  remaining : Nat
  resetTime : Nat
deriving DecidableEq, Repr

/-- The value produced by the `catch` branch of `checkRateLimit`
(src/lib/kv.ts lines 120-131): fail closed. -/
def rateLimitFail (now window : Nat) : RateLimitResult :=
  ⟨false, 0, now + window * 1000⟩

/-- The tail of `checkRateLimit` after the increment (src/lib/kv.ts lines
102-119): the limit comparison and the `kv.ttl` read, whose failure is also
caught fail-closed.  `errs 2` says whether the `kv.ttl` call site raises. -/
def rateLimitTail (st : RateState) (errs : Nat → Bool) (key : String)
    (limit window now current : Nat) : RateLimitResult × RateState × Bool :=
  if limit < current then
    if errs 2 then (rateLimitFail now window, st, true)
    else
      let t := kvTtl st key now
      (⟨false, 0, now + (max t 0).toNat * 1000⟩, st, false)
  else
    if errs 2 then (rateLimitFail now window, st, true)
    else
      let t := kvTtl st key now
      (⟨true, limit - current, now + (max t (window : Int)).toNat * 1000⟩,
        st, false)

/-- `checkRateLimit` (src/lib/kv.ts lines 82-132).  `errs` is the error
schedule of the backing store: `errs 0` - the `kv.incr` call raises,
`errs 1` - the `kv.expire` call raises, `errs 2` - the `kv.ttl` call
raises.  The third component of the result records whether some invoked KV
call raised (and was caught by the fail-closed handler). -/
def checkRateLimit (st : RateState) (errs : Nat → Bool) (identifier : String)
    (ty : RateLimitType) (limit window now : Nat) :
    RateLimitResult × RateState × Bool :=
  let key := rateLimitKey ty identifier
  if errs 0 then (rateLimitFail now window, st, true)
  else
    let ir := kvIncr st key now
    if ir.1 = 1 then
      if errs 1 then (rateLimitFail now window, ir.2, true)
      else rateLimitTail (kvExpire ir.2 key window now) errs key limit window
        now ir.1
    else rateLimitTail ir.2 errs key limit window now ir.1

/-! ### Retrieve route (src/app/api/retrieve/[id]/route.ts, current
revision) and the id schema (src/lib/schemas.ts) -/

/-- An HTTP response, reduced to its status code. -/
structure HttpResponse where
  status : Nat
deriving DecidableEq, Repr

/-- `secretIdSchema = z.string().length(21)` (src/lib/schemas.ts line 13):
`safeParse` succeeds exactly when the string has length 21. -/
def secretIdSchemaCheck (id : String) : Bool := id.length = 21

/-- The `GET` handler of the retrieve route (current revision): validates
the id with `secretIdSchema.safeParse` before rate limiting, then runs
`checkRateLimit(clientIP, 'retrieve', 20, 60)` and the one-shot store read.
Returns the response plus the final rate-limit and secret-store states. -/
def retrieveGET (id clientIP : String) (rst : RateState) (errs : Nat → Bool)
    (sst : SecretState) (now : Nat) :
    HttpResponse × RateState × SecretState :=
  if secretIdSchemaCheck id then
    let rl := checkRateLimit rst errs clientIP .retrieve 20 60 now
    if rl.1.allowed then
      let sec := retrieveAndDeleteSecret sst id now
      match sec.1 with
      | none => (⟨404⟩, rl.2.1, sec.2)
      | some _ => (⟨200⟩, rl.2.1, sec.2)
    else (⟨429⟩, rl.2.1, sst)
  else (⟨400⟩, rst, sst)

/-! ### Password generator (src/lib/password-generator.ts, current
revision) -/

/-- The uppercase alphabet (src/lib/password-generator.ts line 21). -/
def UPPERCASE : List Char := "ABCDEFGHIJKLMNOPQRSTUVWXYZ".data

/-- The lowercase alphabet (line 22). -/
def LOWERCASE : List Char := "abcdefghijklmnopqrstuvwxyz".data

/-- The digit alphabet (line 23). -/
def NUMBERS : List Char := "0123456789".data

/-- The symbol alphabet (line 24). -/
def SYMBOLS : List Char := "!@#$%^&*()_+-=[]{}|;:,.<>?".data

/-- `PasswordOptions` (src/lib/password-generator.ts lines 5-11). -/
structure PasswordOptions where
  length : Nat
  includeUppercase : Bool
  includeLowercase : Bool
  includeNumbers : Bool
  includeSymbols : Bool
deriving DecidableEq, Repr

/-- The active charset: enabled class alphabets concatenated in the fixed
source order (lines 55-60). -/
def charsetOf (o : PasswordOptions) : List Char :=
  (if o.includeUppercase then UPPERCASE else []) ++
  (if o.includeLowercase then LOWERCASE else []) ++
  (if o.includeNumbers then NUMBERS else []) ++
  (if o.includeSymbols then SYMBOLS else [])

/-- `2^32`, the output range of one `Uint32Array` sample. -/
def U32 : Nat := 4294967296

/-- `threshold = 0x100000000 - (0x100000000 % max)` (line 40): the largest
multiple of `max` that fits in 32 bits. -/
def rejectionThreshold (max : Nat) : Nat := U32 - U32 % max

/-- The rejection loop of `getUnbiasedRandomIndex` (lines 46-49) over a
sequence of raw 32-bit samples: samples `≥ threshold` are discarded and a
fresh sample is drawn; an accepted sample is reduced modulo `max`.  Returns
the drawn index and the unconsumed samples, or `none` if the samples run
out. -/
def rejectionLoop (max : Nat) : List Nat → Option (Nat × List Nat)
  | [] => none
  | r :: rest =>
      if rejectionThreshold max ≤ r then rejectionLoop max rest
      else some (r % max, rest)

/-- `getUnbiasedRandomIndex` (src/lib/password-generator.ts lines 33-52):
guards the range (`max <= 0 || max > 0x100000000` throws) and then runs the
rejection-sampling loop. -/
def getUnbiasedRandomIndex (max : Nat) (samples : List Nat) :
    Option (Nat × List Nat) :=
  if max = 0 ∨ U32 < max then none else rejectionLoop max samples

/-- One draw `alphabet[getUnbiasedRandomIndex(alphabet.length)]`. -/
def drawChar (alphabet : List Char) (samples : List Nat) :
    Option (Char × List Nat) :=
  match getUnbiasedRandomIndex alphabet.length samples with
  | none => none
  | some (i, rest) =>
      match alphabet[i]? with
      | none => none
      | some c => some (c, rest)

/-- The first loop of `generateSecurePassword` (lines 69-71): draw `n`
independent charset symbols. -/
def drawChars (alphabet : List Char) : Nat → List Nat →
    Option (List Char × List Nat)
  | 0, s => some ([], s)
  | n + 1, s =>
      match drawChar alphabet s with
      | none => none
      | some (c, s1) =>
          match drawChars alphabet n s1 with
          | none => none
          | some (cs, s2) => some (c :: cs, s2)

/-- The enabled class alphabets in the fixed source order (lines 77-95). -/
def enabledClasses (o : PasswordOptions) : List (List Char) :=
  (if o.includeUppercase then [UPPERCASE] else []) ++
  (if o.includeLowercase then [LOWERCASE] else []) ++
  (if o.includeNumbers then [NUMBERS] else []) ++
  (if o.includeSymbols then [SYMBOLS] else [])

/-- The coverage loop (lines 74-95): for each enabled class in turn,
overwrite the next position with a uniformly drawn symbol of that class.
All positions written stay below the buffer length whenever
`length ≥ number of enabled classes`, which holds under the schema bound
`length ≥ 8`. -/
def applyOverrides : List Char → Nat → List (List Char) → List Nat →
    Option (List Char × List Nat)
  | pw, _, [], s => some (pw, s)
  | pw, pos, cls :: rest, s =>
      match drawChar cls s with
      | none => none
      | some (c, s1) => applyOverrides (pw.set pos c) (pos + 1) rest s1

/-- The swap `[arr[i], arr[j]] = [arr[j], arr[i]]` on a list. -/
def listSwap (l : List Char) (i j : Nat) : List Char :=
  match l[i]?, l[j]? with
  | some a, some b => (l.set i b).set j a
  | _, _ => l

/-- The Fisher-Yates loop (lines 98-101): `i` runs from `length - 1` down
to `1`; the argument counts the remaining iterations, so the current index
is the argument itself. -/
def shuffleGo (l : List Char) : Nat → List Nat →
    Option (List Char × List Nat)
  | 0, s => some (l, s)
  | i + 1, s =>
      match getUnbiasedRandomIndex (i + 2) s with
      | none => none
      | some (r, s1) => shuffleGo (listSwap l (i + 1) r) i s1

/-- `generateSecurePassword` (src/lib/password-generator.ts lines 54-104)
over a sequence of raw 32-bit samples; `none` models the `InvalidPolicy`
throw (empty charset) or running out of samples. -/
def generateSecurePassword (o : PasswordOptions) (samples : List Nat) :
    Option String :=
  if (charsetOf o).length = 0 then none
  else
    match drawChars (charsetOf o) o.length samples with
    | none => none
    | some (pw, s1) =>
        match applyOverrides pw 0 (enabledClasses o) s1 with
        | none => none
        | some (pw2, s2) =>
            match shuffleGo pw2 (pw2.length - 1) s2 with
            | none => none
            | some (pw3, _) => some (String.mk pw3)

/-! ### Password strength (src/lib/password-generator.ts lines 106-189) -/

/-- `PasswordStrength` (lines 13-18); the score is kept as an integer since
the running score may go negative before the final clamp. -/
structure PasswordStrength where
  score : Int
  label : String
  color : String
  feedback : List String
deriving DecidableEq, Repr

/-- The test `/[a-z]/` on the password. -/
def hasLowercase (p : List Char) : Bool :=
  p.any fun c => 'a' ≤ c ∧ c ≤ 'z'

/-- The test `/[A-Z]/`. -/
def hasUppercase (p : List Char) : Bool :=
  p.any fun c => 'A' ≤ c ∧ c ≤ 'Z'

/-- The test `/[0-9]/`. -/
def hasNumbers (p : List Char) : Bool :=
  p.any fun c => '0' ≤ c ∧ c ≤ '9'

/-- The test `/[^a-zA-Z0-9]/`: any non-alphanumeric character counts as a
symbol. -/
def hasSymbols (p : List Char) : Bool :=
  p.any fun c =>
    ¬ (('a' ≤ c ∧ c ≤ 'z') ∨ ('A' ≤ c ∧ c ≤ 'Z') ∨ ('0' ≤ c ∧ c ≤ '9'))

/-- `varietyCount` (line 127): how many of the four classes are present. -/
def varietyCount (p : List Char) : Nat :=
  (if hasLowercase p then 1 else 0) + (if hasUppercase p then 1 else 0) +
  (if hasNumbers p then 1 else 0) + (if hasSymbols p then 1 else 0)

/-- A JavaScript line terminator: `\n`, `\r`, U+2028 or U+2029.  The
regex `.` without the `s` flag matches every character except these. -/
def isLineTerminator (c : Char) : Bool :=
  c = Char.ofNat 10 ∨ c = Char.ofNat 13 ∨ c = Char.ofNat 8232 ∨
  c = Char.ofNat 8233

/-- The test `/(.)\1{2,}/` (line 140): three or more equal consecutive
characters.  The dot does not match line terminators, so a run of
line terminators is not matched. -/
def hasRepeatingChars : List Char → Bool
  | a :: b :: c :: rest =>
      (!isLineTerminator a && a == b && b == c) ||
        hasRepeatingChars (b :: c :: rest)
  | _ => false

/-- Three or more equal consecutive characters of any kind — the claim's
words for the repeat penalty ("any character repeats 3 or more times
consecutively"), for comparison against the source's regex. -/
def hasAnyTripleRepeat : List Char → Bool
  | a :: b :: c :: rest =>
      (a == b && b == c) || hasAnyTripleRepeat (b :: c :: rest)
  | _ => false

/-- The fixed list of three-character runs of the sequential-characters
regex (line 141). -/
def SEQUENCES : List (List Char) :=
  ["abc", "bcd", "cde", "def", "efg", "fgh", "ghi", "hij", "ijk", "jkl",
   "klm", "lmn", "mno", "nop", "opq", "pqr", "qrs", "rst", "stu", "tuv",
   "uvw", "vwx", "wxy", "xyz", "123", "234", "345", "456", "567", "678",
   "789"].map String.data

/-- Whether `t` occurs as a block of consecutive characters of `p`
(three-character windows suffice for the patterns above). -/
def containsTriple (p t : List Char) : Bool :=
  match p with
  | a :: b :: c :: rest => ([a, b, c] == t) || containsTriple (b :: c :: rest) t
  | _ => false

/-- The sequential-characters test (line 141): the regex carries the `/i`
flag, so the password is matched case-insensitively. -/
def hasSequentialChars (p : List Char) : Bool :=
  SEQUENCES.any fun seq => containsTriple (p.map Char.toLower) seq

/-- The running score of `calculatePasswordStrength` before the final
clamp (src/lib/password-generator.ts lines 107-151): the sequential
`score += / score -=` accumulation. -/
def strengthScoreRaw (p : List Char) : Int :=
  let s1 : Int := if 12 ≤ p.length then 1 else 0
  let s2 : Int := if 16 ≤ p.length then s1 + 1 else s1
  let s3 : Int := if 3 ≤ varietyCount p then s2 + 1 else s2
  let s4 : Int := if varietyCount p = 4 then s3 + 1 else s3
  let s5 : Int := if hasRepeatingChars p then s4 - 1 else s4
  if hasSequentialChars p then s5 - 1 else s5

/-- The feedback entries accumulated by `calculatePasswordStrength`, in
push order. -/
def strengthFeedback (p : List Char) : List String :=
  (if 12 ≤ p.length then [] else ["Use at least 12 characters"]) ++
  (if 3 ≤ varietyCount p then []
    else ["Include uppercase, lowercase, numbers, and symbols"]) ++
  (if hasRepeatingChars p then ["Avoid repeating characters"] else []) ++
  (if hasSequentialChars p then ["Avoid sequential characters"] else [])

/-- The label/color switch of `calculatePasswordStrength` (lines
160-181). -/
def strengthLabelColor (score : Int) : String × String :=
  if score = 0 ∨ score = 1 then ("Weak", "text-red-500")
  else if score = 2 then ("Fair", "text-orange-500")
  else if score = 3 then ("Good", "text-yellow-500")
  else if score = 4 then ("Strong", "text-green-500")
  else ("Unknown", "text-gray-500")

/-- `calculatePasswordStrength` (src/lib/password-generator.ts lines
106-189): accumulated score, clamp to `[0,4]`, label/color switch, and
feedback (or the single affirmative message). -/
def calculatePasswordStrength (p : List Char) : PasswordStrength :=
  let score : Int := max 0 (min 4 (strengthScoreRaw p))
  ⟨score, (strengthLabelColor score).1, (strengthLabelColor score).2,
    if (strengthFeedback p).length > 0 then strengthFeedback p
    else ["Password looks good!"]⟩

/-- The claim's score formula with the repeat and sequential-run tests
abstracted: clamp to `[0,4]` of length points, variety points and the two
penalties. -/
def specScore (p : List Char) (rep seq : Bool) : Int :=
  let lenPts : Int :=
    (if 12 ≤ p.length then 1 else 0) + (if 16 ≤ p.length then 1 else 0)
  let varPts : Int :=
    (if 3 ≤ varietyCount p then 1 else 0) +
    (if varietyCount p = 4 then 1 else 0)
  let repPen : Int := if rep then 1 else 0
  let seqPen : Int := if seq then 1 else 0
  max 0 (min 4 (lenPts + varPts - repPen - seqPen))

/-- Whether three consecutive characters form an ascending alphabetic or
numeric run (the password has already been lowercased). -/
def isAscendingTriple (a b c : Char) : Bool :=
  (('a' ≤ a ∧ a ≤ 'x') ∧ b.toNat = a.toNat + 1 ∧ c.toNat = a.toNat + 2) ∨
  (('0' ≤ a ∧ a ≤ '7') ∧ b.toNat = a.toNat + 1 ∧ c.toNat = a.toNat + 2)

/-- Scan for an ascending triple among consecutive three-character
windows. -/
def ascendingRunScan : List Char → Bool
  | a :: b :: c :: rest => isAscendingTriple a b c || ascendingRunScan (b :: c :: rest)
  | _ => false

/-- Whether the password contains a three-character ascending alphabetic or
numeric run, case-insensitively.  Stated from the claim's words ("any
3-character ascending alphabetic or numeric run"), for comparison against
the source's fixed run list. -/
def hasAscendingRun (p : List Char) : Bool :=
  ascendingRunScan (p.map Char.toLower)

/-- The claim's score of a password: the repeat penalty applies to every
triple repeat and the sequential penalty to every ascending run. -/
def claimStrengthScore (p : List Char) : Int :=
  specScore p (hasAnyTripleRepeat p) (hasAscendingRun p)

/-- The source's score restated as the clamp formula: the repeat penalty
skips line-terminator runs (the regex dot) and the sequential penalty
applies to the fixed run list only. -/
def codeStrengthScore (p : List Char) : Int :=
  specScore p (hasRepeatingChars p) (hasSequentialChars p)

/-- The label mapping of the claim: 0-1 Weak, 2 Fair, 3 Good, 4 Strong. -/
def specLabel (score : Int) : String :=
  if score ≤ 1 then "Weak"
  else if score = 2 then "Fair"
  else if score = 3 then "Good"
  else "Strong"

/-! ### Base64url codec and envelope framing (client crypto utilities) -/

/-- The sextet value of a standard base64 character, `none` outside the
alphabet. -/
def sextet (c : Char) : Option Nat :=
  if 'A' ≤ c ∧ c ≤ 'Z' then some (c.toNat - 65)
  else if 'a' ≤ c ∧ c ≤ 'z' then some (c.toNat - 71)
  else if '0' ≤ c ∧ c ≤ '9' then some (c.toNat + 4)
  else if c = '+' then some 62
  else if c = '/' then some 63
  else none

/-- The standard base64 character of a sextet value. -/
def sextetChar (n : Nat) : Char :=
  if n < 26 then Char.ofNat (65 + n)
  else if n < 52 then Char.ofNat (71 + n)
  else if n < 62 then Char.ofNat (n - 4)
  else if n = 62 then '+'
  else '/'

/-- ASCII whitespace, skipped by the forgiving base64 decoder behind
`atob`. -/
def isAsciiWhitespace (c : Char) : Bool :=
  c = Char.ofNat 9 ∨ c = Char.ofNat 10 ∨ c = Char.ofNat 12 ∨
  c = Char.ofNat 13 ∨ c = ' '

/-- The sextet sequence of a byte sequence: groups of three bytes yield
four sextets; one or two trailing bytes yield two or three sextets. -/
def encodeSextets : List Nat → List Nat
  | a :: b :: c :: rest =>
      a / 4 :: ((a % 4) * 16 + b / 16) :: ((b % 16) * 4 + c / 64) :: c % 64 ::
        encodeSextets rest
  | [a, b] => [a / 4, (a % 4) * 16 + b / 16, (b % 16) * 4]
  | [a] => [a / 4, (a % 4) * 16]
  | [] => []

/-- `btoa` of the binary string of the bytes: standard base64 with `=`
padding to a multiple of four characters. -/
def btoa (bytes : List Nat) : List Char :=
  (encodeSextets bytes).map sextetChar ++
    List.replicate ((4 - (encodeSextets bytes).length % 4) % 4) '='

/-- The character replacement of `base64UrlEncode`: `+` to `-` and `/` to
`_` (the `=` stripping is separate). -/
def urlOfStd (c : Char) : Char :=
  if c = '+' then '-' else if c = '/' then '_' else c

/-- The character replacement of `base64UrlDecode`: `-` to `+` and `_` to
`/`. -/
def stdOfUrl (c : Char) : Char :=
  if c = '-' then '+' else if c = '_' then '/' else c

/-- `base64UrlEncode` (client crypto utilities lines 7-17): `btoa`, then
replace `+` and `/`, then remove the padding. -/
def base64UrlEncode (bytes : List Nat) : String :=
  String.mk (((btoa bytes).map urlOfStd).filter (fun c => c ≠ '='))

/-- Remove one trailing `=` if present. -/
def dropTrailingEq (l : List Char) : List Char :=
  if l.getLast? = some '=' then l.dropLast else l

/-- Decode a sextet-value sequence into bytes: groups of four sextets yield
three bytes; two or three trailing sextets yield one or two bytes, the
leftover low bits being discarded (forgiving base64). -/
def decodeSextets : List Nat → List Nat
  | a :: b :: c :: d :: rest =>
      (a * 4 + b / 16) :: ((b % 16) * 16 + c / 4) :: ((c % 4) * 64 + d) ::
        decodeSextets rest
  | [a, b, c] => [a * 4 + b / 16, (b % 16) * 16 + c / 4]
  | [a, b] => [a * 4 + b / 16]
  | _ => []

/-- The main stage of the forgiving-base64 decoder: a length of 1 mod 4
or any character outside the base64 alphabet is an error (`none`,
modelling the `InvalidCharacterError` throw); otherwise the sextets are
decoded. -/
def atobMain (d : List Char) : Option (List Nat) :=
  if d.length % 4 = 1 then none
  else if d.any fun c => (sextet c).isNone then none
  else some (decodeSextets (d.map fun c => (sextet c).getD 0))

/-- `atob` on a character sequence: the WHATWG forgiving-base64 decoder.
Whitespace is removed; when the length is a multiple of four, up to two
trailing `=` are dropped; the rest is `atobMain`. -/
def atob (cs : List Char) : Option (List Nat) :=
  atobMain
    (if (cs.filter fun c => ¬ isAsciiWhitespace c).length % 4 = 0 then
      dropTrailingEq
        (dropTrailingEq (cs.filter fun c => ¬ isAsciiWhitespace c))
    else cs.filter fun c => ¬ isAsciiWhitespace c)

/-- `base64UrlDecode` (client crypto utilities lines 19-31): pad to a
multiple of four with `=`, replace the URL-safe characters back, and run
`atob`. -/
def base64UrlDecode (s : String) : Option (List Nat) :=
  atob ((s.data ++
    List.replicate ((4 - s.data.length % 4) % 4) '=').map stdOfUrl)

/-- `combineIvAndCiphertext` (client crypto utilities lines 112-117): the
IV bytes followed by the ciphertext bytes. -/
def combineIvAndCiphertext (iv ciphertext : List Nat) : List Nat :=
  iv ++ ciphertext

/-- `separateIvAndCiphertext` (client crypto utilities lines 120-128): the
first 12 bytes are the IV, the rest is the ciphertext. -/
def separateIvAndCiphertext (combined : List Nat) : List Nat × List Nat :=
  (combined.take 12, combined.drop 12)

/-! ## Helper lemmas: secret store -/

/-- After any `retrieveAndDeleteSecret`, the id's key is absent. -/
theorem take_removes (st : SecretState) (id : String) (t : Nat) :
    (retrieveAndDeleteSecret st id t).2 (secretKey id) = none := by
  unfold retrieveAndDeleteSecret kvGetdel
  cases h : st (secretKey id) with
  | none => simpa using h
  | some ve =>
      obtain ⟨v, e⟩ := ve
      by_cases ht : t < e <;> simp [ht]

/-- A take on a state where the id is absent returns `null` and leaves the
state unchanged. -/
theorem take_absent {st : SecretState} {id : String} (t : Nat)
    (h : st (secretKey id) = none) :
    (retrieveAndDeleteSecret st id t).1 = none ∧
      (retrieveAndDeleteSecret st id t).2 = st := by
  unfold retrieveAndDeleteSecret kvGetdel
  simp [h, retrieveAndDeleteSecretFromRead]

/-- Every take in a sequence returns `null` once the id is absent. -/
theorem runTakes_all_none {st : SecretState} {id : String}
    (h : st (secretKey id) = none) :
    ∀ ts : List Nat, ∀ r ∈ runTakes st id ts, r = none := by
  intro ts
  induction ts generalizing st with
  | nil => intro r hr; simp [runTakes] at hr
  | cons t ts ih =>
      intro r hr
      rw [runTakes] at hr
      rcases take_absent t h with ⟨h1, h2⟩
      rcases List.mem_cons.mp hr with hr | hr
      · rw [hr, h1]
      · exact ih (take_removes st id t) r hr

/-! ## C1 -/

/-- C1: at most one take for an id ever returns a record.  (i) Over any
sequence of takes, at most one returns non-absent; (ii) a successful take
deletes the record in the same step, so every later take returns absent;
(iii) once the 24-hour TTL has elapsed after a store, a take returns the
same absent result as for an id that never existed. -/
theorem c1_take_at_most_once :
    (∀ (st : SecretState) (id : String) (ts : List Nat),
      (runTakes st id ts).countP (fun r => r.isSome) ≤ 1) ∧
    (∀ (st : SecretState) (id : String) (t t' : Nat) (v : StoredSecret),
      (retrieveAndDeleteSecret st id t).1 = some v →
      (retrieveAndDeleteSecret (retrieveAndDeleteSecret st id t).2 id t').1
        = none) ∧
    (∀ (st : SecretState) (id data : String) (now t : Nat),
      now + SECRET_TTL * 1000 ≤ t →
      (retrieveAndDeleteSecret (storeSecret st id data now).2 id t).1 =
        (retrieveAndDeleteSecret emptySecretState id t).1) := by
  refine ⟨?_, ?_, ?_⟩
  · intro st id ts
    cases ts with
    | nil => simp [runTakes]
    | cons t ts =>
        rw [runTakes, List.countP_cons]
        have hrest : (runTakes (retrieveAndDeleteSecret st id t).2 id
            ts).countP (fun r => r.isSome) = 0 :=
          List.countP_eq_zero.mpr fun r hr => by
            rw [runTakes_all_none (take_removes st id t) ts r hr]
            simp
        rw [hrest]
        split <;> simp
  · intro st id t t' v _
    exact (take_absent t' (take_removes st id t)).1
  · intro st id data now t ht
    have hx : ¬ t < now + SECRET_TTL * 1000 := Nat.not_lt.mpr ht
    simp [retrieveAndDeleteSecret, kvGetdel, storeSecret, kvSetex,
      emptySecretState, retrieveAndDeleteSecretFromRead, hx]

/-- Witness for C1: part (ii) at a concrete store and id, and part (iii)
at the exact TTL boundary. -/
theorem c1_witness :
    (retrieveAndDeleteSecret
        (retrieveAndDeleteSecret
          (storeSecret emptySecretState "id0" "data0" 0).2 "id0" 5).2
        "id0" 6).1 = none ∧
    (retrieveAndDeleteSecret
        (storeSecret emptySecretState "id0" "data0" 0).2 "id0"
        86400000).1 = none := by
  constructor
  · exact c1_take_at_most_once.2.1
      (storeSecret emptySecretState "id0" "data0" 0).2 "id0" 5 6
      ⟨"data0", 0⟩ (by decide)
  · have h := c1_take_at_most_once.2.2 emptySecretState "id0" "data0" 0
      86400000 (by decide)
    rw [h]; rfl

/-! ## C2 -/

/-- C2 counterexample: a transport error during the store read is caught
and returned as `null`, the very value produced for a legitimately missing
record — the two are indistinguishable to the caller. -/
theorem c2_counterexample :
    retrieveAndDeleteSecretFromRead (Except.error KVError.transport) = none ∧
    (retrieveAndDeleteSecret emptySecretState "someid" 0).1 = none :=
  ⟨rfl, rfl⟩

/-- C2 amended: when the backing store fails during a read, the
`try/catch` in `retrieveAndDeleteSecret` swallows the error and returns the
same absent result (`null`) as for an id that never existed. -/
theorem c2_read_error_returns_absent (e : KVError) (id : String) (t : Nat) :
    retrieveAndDeleteSecretFromRead (Except.error e) =
      (retrieveAndDeleteSecret emptySecretState id t).1 :=
  rfl

/-! ## C3 -/

/-- C3: whenever a backing-store call invoked by `checkRateLimit` raises,
the limiter fails closed: `allowed = false` and `remaining = 0`. -/
theorem c3_fail_closed (st : RateState) (errs : Nat → Bool)
    (identifier : String) (ty : RateLimitType) (limit window now : Nat)
    (h : (checkRateLimit st errs identifier ty limit window now).2.2 = true) :
    (checkRateLimit st errs identifier ty limit window now).1.allowed
        = false ∧
    (checkRateLimit st errs identifier ty limit window now).1.remaining
        = 0 := by
  by_cases he0 : errs 0 = true
  all_goals by_cases he1 : errs 1 = true
  all_goals by_cases he2 : errs 2 = true
  all_goals by_cases hc1 : (kvIncr st (rateLimitKey ty identifier) now).1 = 1
  all_goals by_cases hlt :
    limit < (kvIncr st (rateLimitKey ty identifier) now).1
  all_goals simp_all [checkRateLimit, rateLimitTail, rateLimitFail]

/-- Witness for C3: with every call erroring, the limiter denies the
request with zero remaining. -/
theorem c3_witness :
    (checkRateLimit emptyRateState (fun _ => true) "1.2.3.4" .share 10 60
        0).2.2 = true ∧
    (checkRateLimit emptyRateState (fun _ => true) "1.2.3.4" .share 10 60
        0).1.allowed = false ∧
    (checkRateLimit emptyRateState (fun _ => true) "1.2.3.4" .share 10 60
        0).1.remaining = 0 :=
  ⟨by decide, c3_fail_closed emptyRateState (fun _ => true) "1.2.3.4" .share
    10 60 0 (by decide)⟩

/-! ## Helper lemmas: rate-limit keys -/

/-- Two appends with distinct prefixes at some index are distinct lists. -/
theorem ne_append_of_idx {α : Type} {p q : List α} (i : Nat)
    (hp : i < p.length) (hq : i < q.length) (hne : ¬ p[i]? = q[i]?) :
    ∀ l l' : List α, ¬ (p ++ l = q ++ l') := by
  intro l l' he
  apply hne
  have e1 : (p ++ l)[i]? = p[i]? := List.getElem?_append_left hp
  have e2 : (q ++ l')[i]? = q[i]? := List.getElem?_append_left hq
  rw [← e1, ← e2, he]

/-- The key template `rate_limit:${type}:${identifier}` is injective in the
pair (type, identifier). -/
theorem rateLimitKey_inj {ty ty' : RateLimitType} {id id' : String}
    (h : rateLimitKey ty id = rateLimitKey ty' id') :
    ty = ty' ∧ id = id' := by
  have hd := congrArg String.data h
  cases ty <;> cases ty' <;>
    simp only [rateLimitKey, rateLimitTypeStr, String.data_append] at hd
  · exact ⟨rfl, String.ext (List.append_inj_right hd rfl)⟩
  · exact absurd hd (ne_append_of_idx 11 (by decide) (by decide) (by decide)
      id.data id'.data)
  · exact absurd hd (ne_append_of_idx 11 (by decide) (by decide) (by decide)
      id.data id'.data)
  · exact ⟨rfl, String.ext (List.append_inj_right hd rfl)⟩

/-- `kvIncr` leaves every other key unchanged. -/
theorem kvIncr_frame (st : RateState) (key k : String) (now : Nat)
    (h : k ≠ key) : (kvIncr st key now).2 k = st k := by
  unfold kvIncr
  cases rateEntryLive (st key) now with
  | none => simp [h]
  | some ce => obtain ⟨c, e⟩ := ce; simp [h]

/-- `kvExpire` leaves every other key unchanged. -/
theorem kvExpire_frame (st : RateState) (key k : String) (window now : Nat)
    (h : k ≠ key) : kvExpire st key window now k = st k := by
  unfold kvExpire
  cases rateEntryLive (st key) now with
  | none => rfl
  | some ce => obtain ⟨c, e⟩ := ce; simp [h]

/-- `rateLimitTail` never changes the store. -/
theorem rateLimitTail_state (st : RateState) (errs : Nat → Bool)
    (key : String) (limit window now current : Nat) :
    (rateLimitTail st errs key limit window now current).2.1 = st := by
  unfold rateLimitTail
  split <;> split <;> rfl

/-! ## C4 -/

/-- C4: a `checkRateLimit` call for (type, identifier) modifies only the
counter keyed by that pair; every counter of a different identifier or a
different endpoint class keeps its value and expiry. -/
theorem c4_rate_limit_frame (st : RateState) (errs : Nat → Bool)
    (identifier : String) (ty : RateLimitType) (limit window now : Nat)
    (ty' : RateLimitType) (id' : String)
    (h : ty' ≠ ty ∨ id' ≠ identifier) :
    (checkRateLimit st errs identifier ty limit window now).2.1
        (rateLimitKey ty' id') = st (rateLimitKey ty' id') := by
  have hk : rateLimitKey ty' id' ≠ rateLimitKey ty identifier := by
    intro he
    rcases rateLimitKey_inj he with ⟨h1, h2⟩
    rcases h with h | h <;> exact h (by assumption)
  by_cases he0 : errs 0 = true
  · simp [checkRateLimit, he0]
  · by_cases hc1 : (kvIncr st (rateLimitKey ty identifier) now).1 = 1
    · by_cases he1 : errs 1 = true
      · simp only [checkRateLimit, he0, hc1, he1, if_true, if_false,
          Bool.false_eq_true, if_pos, ite_true, ite_false]
        exact kvIncr_frame st _ _ now hk
      · simp only [checkRateLimit, he0, hc1, he1, Bool.false_eq_true,
          ite_true, ite_false, rateLimitTail_state]
        rw [kvExpire_frame _ _ _ _ _ hk]
        exact kvIncr_frame st _ _ now hk
    · simp only [checkRateLimit, he0, hc1, Bool.false_eq_true, ite_true,
        ite_false, rateLimitTail_state]
      exact kvIncr_frame st _ _ now hk

/-- Witness for C4: exhausting "share" for one address leaves the
"retrieve" counter of the same address, and the "share" counter of another
address, untouched. -/
theorem c4_witness :
    (checkRateLimit emptyRateState (fun _ => false) "1.2.3.4" .share 10 60
        0).2.1 (rateLimitKey .retrieve "1.2.3.4") = none ∧
    (checkRateLimit emptyRateState (fun _ => false) "1.2.3.4" .share 10 60
        0).2.1 (rateLimitKey .share "5.6.7.8") = none :=
  ⟨c4_rate_limit_frame emptyRateState (fun _ => false) "1.2.3.4" .share 10
      60 0 .retrieve "1.2.3.4" (Or.inl (by decide)),
    c4_rate_limit_frame emptyRateState (fun _ => false) "1.2.3.4" .share 10
      60 0 .share "5.6.7.8" (Or.inr (by decide))⟩

/-! ## C8 -/

/-- C8 counterexample: a path id of 21 `!` characters is outside the
`[A-Za-z0-9_-]` alphabet, yet the deployed `secretIdSchema` checks only the
length, so the handler does not reject it with 400: it consumes rate-limit
quota (the retrieve counter is created) and reaches the store, answering
404. -/
theorem c8_counterexample :
    "!!!!!!!!!!!!!!!!!!!!!".length = 21 ∧
    (∃ c ∈ "!!!!!!!!!!!!!!!!!!!!!".data,
      ¬ (c.isAlphanum ∨ c = '_' ∨ c = '-')) ∧
    (retrieveGET "!!!!!!!!!!!!!!!!!!!!!" "1.2.3.4" emptyRateState
        (fun _ => false) emptySecretState 0).1.status = 404 ∧
    (retrieveGET "!!!!!!!!!!!!!!!!!!!!!" "1.2.3.4" emptyRateState
        (fun _ => false) emptySecretState 0).2.1
        (rateLimitKey .retrieve "1.2.3.4") = some (1, some 60000) ∧
    emptyRateState (rateLimitKey .retrieve "1.2.3.4") = none := by
  refine ⟨by decide, ⟨'!', by decide, by decide⟩, by decide, by decide, rfl⟩

/-- C8 amended: the handler rejects a retrieval whose id length differs
from 21 with status 400 before consuming rate-limit quota or touching the
store; the alphabet itself is not checked by the deployed schema. -/
theorem c8_length_checked_before_quota (id clientIP : String)
    (rst : RateState) (errs : Nat → Bool) (sst : SecretState) (now : Nat)
    (h : id.length ≠ 21) :
    retrieveGET id clientIP rst errs sst now = (⟨400⟩, rst, sst) := by
  unfold retrieveGET secretIdSchemaCheck
  simp [h]

/-- Witness for C8: a short id is rejected with 400 and both stores are
untouched. -/
theorem c8_witness :
    retrieveGET "short" "1.2.3.4" emptyRateState (fun _ => false)
      emptySecretState 0 = (⟨400⟩, emptyRateState, emptySecretState) :=
  c8_length_checked_before_quota "short" "1.2.3.4" emptyRateState
    (fun _ => false) emptySecretState 0 (by decide)

/-! ## Helper lemmas: rejection sampling -/

/-- The threshold equals the largest multiple of `max` below `2^32`,
written as `(2^32 / max) * max`. -/
theorem rejectionThreshold_eq (max : Nat) :
    rejectionThreshold max = U32 / max * max := by
  unfold rejectionThreshold
  exact Nat.sub_eq_of_eq_add
    (by rw [Nat.mul_comm]; exact (Nat.div_add_mod U32 max).symm)

/-- A raw sample at or above the threshold is discarded: the draw proceeds
with the remaining samples. -/
theorem getUnbiasedRandomIndex_skip {max r : Nat} (hpos : 0 < max)
    (hle : max ≤ U32) (s : List Nat) (hr : rejectionThreshold max ≤ r) :
    getUnbiasedRandomIndex max (r :: s) = getUnbiasedRandomIndex max s := by
  have hg : ¬ (max = 0 ∨ U32 < max) := by omega
  unfold getUnbiasedRandomIndex
  rw [if_neg hg, if_neg hg]
  simp only [rejectionLoop]
  rw [if_pos hr]

/-- A raw sample below the threshold is accepted and reduced modulo
`max`. -/
theorem getUnbiasedRandomIndex_accept {max r : Nat} (hpos : 0 < max)
    (hle : max ≤ U32) (s : List Nat) (hr : r < rejectionThreshold max) :
    getUnbiasedRandomIndex max (r :: s) = some (r % max, s) := by
  have hg : ¬ (max = 0 ∨ U32 < max) := by omega
  unfold getUnbiasedRandomIndex
  rw [if_neg hg]
  simp only [rejectionLoop]
  rw [if_neg (Nat.not_le.mpr hr)]

/-- An accepted draw from the rejection loop lies in `[0, max)`. -/
theorem rejectionLoop_lt {max : Nat} (hpos : 0 < max) :
    ∀ (s : List Nat) (v : Nat) (rest : List Nat),
      rejectionLoop max s = some (v, rest) → v < max := by
  intro s
  induction s with
  | nil => intro v rest h; simp [rejectionLoop] at h
  | cons r t ih =>
      intro v rest h
      simp only [rejectionLoop] at h
      split at h
      · exact ih v rest h
      · rw [Option.some.injEq, Prod.mk.injEq] at h
        rw [← h.1]
        exact Nat.mod_lt r hpos

/-- Any successful draw lies in `[0, max)`. -/
theorem getUnbiasedRandomIndex_lt {max : Nat} (s : List Nat) (v : Nat)
    (rest : List Nat) (h : getUnbiasedRandomIndex max s = some (v, rest)) :
    v < max := by
  unfold getUnbiasedRandomIndex at h
  split at h
  · exact absurd h (by simp)
  · rename_i hg
    exact rejectionLoop_lt (by omega) s v rest h

/-- The charset never exceeds `2^32` symbols. -/
theorem charsetOf_length_le (o : PasswordOptions) :
    (charsetOf o).length ≤ U32 := by
  unfold charsetOf
  split <;> split <;> split <;> split <;> decide

/-! ## C5 -/

/-- C5: every draw of the password synthesis goes through rejection
sampling.  The threshold is the largest multiple of `n` that fits in
`2^32`; any raw sample at or above it is discarded and redrawn before the
modulo reduction, any sample below it is reduced modulo `n`; accepted
draws lie in `[0, n)`; and at the synthesis level a rejected raw sample is
transparent: `generateSecurePassword` behaves as if it had never been
drawn. -/
theorem c5_rejection_sampling :
    (∀ max : Nat, 0 < max → max ≤ U32 →
      (rejectionThreshold max = U32 / max * max ∧
        max ∣ rejectionThreshold max ∧
        rejectionThreshold max ≤ U32 ∧
        (∀ m : Nat, max ∣ m → m ≤ U32 → m ≤ rejectionThreshold max)) ∧
      (∀ (r : Nat) (s : List Nat), rejectionThreshold max ≤ r →
        getUnbiasedRandomIndex max (r :: s) = getUnbiasedRandomIndex max s) ∧
      (∀ (r : Nat) (s : List Nat), r < rejectionThreshold max →
        getUnbiasedRandomIndex max (r :: s) = some (r % max, s)) ∧
      (∀ (s : List Nat) (v : Nat) (rest : List Nat),
        getUnbiasedRandomIndex max s = some (v, rest) → v < max)) ∧
    (∀ (o : PasswordOptions) (r : Nat) (s : List Nat), charsetOf o ≠ [] →
      0 < o.length → rejectionThreshold (charsetOf o).length ≤ r →
      generateSecurePassword o (r :: s) = generateSecurePassword o s) := by
  constructor
  · intro max hpos hle
    refine ⟨⟨rejectionThreshold_eq max, ?_, Nat.sub_le _ _, ?_⟩, ?_, ?_, ?_⟩
    · exact ⟨U32 / max, (rejectionThreshold_eq max).trans (Nat.mul_comm _ _)⟩
    · intro m hdvd hm
      obtain ⟨k, rfl⟩ := hdvd
      rw [rejectionThreshold_eq, Nat.mul_comm max k]
      exact Nat.mul_le_mul_right max
        ((Nat.le_div_iff_mul_le hpos).mpr (by rwa [Nat.mul_comm max k] at hm))
    · intro r s hr; exact getUnbiasedRandomIndex_skip hpos hle s hr
    · intro r s hr; exact getUnbiasedRandomIndex_accept hpos hle s hr
    · intro s v rest h; exact getUnbiasedRandomIndex_lt s v rest h
  · intro o r s hne hlen hr
    have hcl : 0 < (charsetOf o).length := List.length_pos.mpr hne
    have hle : (charsetOf o).length ≤ U32 := charsetOf_length_le o
    obtain ⟨n, hn⟩ : ∃ n, o.length = n + 1 := ⟨o.length - 1, by omega⟩
    have hdc : drawChar (charsetOf o) (r :: s) = drawChar (charsetOf o) s := by
      unfold drawChar
      rw [getUnbiasedRandomIndex_skip hcl hle s hr]
    have hdcs : drawChars (charsetOf o) o.length (r :: s) =
        drawChars (charsetOf o) o.length s := by
      rw [hn]
      simp only [drawChars]
      rw [hdc]
    unfold generateSecurePassword
    rw [hdcs]

/-- Witness for C5: a rejected raw sample for `max = 26` is skipped and
the next sample accepted; a rejected first sample leaves an 8-character
all-classes synthesis unchanged. -/
theorem c5_witness :
    getUnbiasedRandomIndex 26 (4294967290 :: 5 :: []) = some (5, []) ∧
    generateSecurePassword ⟨8, true, true, true, true⟩
        (4294967295 :: List.replicate 40 0) =
      generateSecurePassword ⟨8, true, true, true, true⟩
        (List.replicate 40 0) := by
  constructor
  · rw [(c5_rejection_sampling.1 26 (by decide) (by decide)).2.1 4294967290
      (5 :: []) (by decide)]
    exact (c5_rejection_sampling.1 26 (by decide) (by decide)).2.2.1 5 []
      (by decide)
  · exact c5_rejection_sampling.2 ⟨8, true, true, true, true⟩ 4294967295
      (List.replicate 40 0) (by decide) (by decide) (by decide)

/-! ## Helper lemmas: password synthesis -/

/-- The charset is non-empty as soon as one class flag is set. -/
theorem charsetOf_length_pos (o : PasswordOptions)
    (h : (o.includeUppercase || o.includeLowercase || o.includeNumbers ||
      o.includeSymbols) = true) : 0 < (charsetOf o).length := by
  by_cases hu : o.includeUppercase = true <;>
    by_cases hl : o.includeLowercase = true <;>
      by_cases hn : o.includeNumbers = true <;>
        by_cases hs : o.includeSymbols = true <;>
          simp_all [charsetOf] <;> decide

/-- A successful `drawChar` yields a character of its alphabet. -/
theorem drawChar_mem {a : List Char} {s s' : List Nat} {c : Char}
    (h : drawChar a s = some (c, s')) : c ∈ a := by
  unfold drawChar at h
  split at h
  · exact absurd h (by simp)
  · split at h
    · exact absurd h (by simp)
    · rename_i he
      rw [Option.some.injEq, Prod.mk.injEq] at h
      exact h.1 ▸ List.getElem?_mem he

/-- A successful `drawChars` yields `n` characters of the alphabet. -/
theorem drawChars_spec {a : List Char} :
    ∀ (n : Nat) (s : List Nat) (cs : List Char) (s' : List Nat),
      drawChars a n s = some (cs, s') →
      cs.length = n ∧ ∀ c ∈ cs, c ∈ a := by
  intro n
  induction n with
  | zero =>
      intro s cs s' h
      simp only [drawChars, Option.some.injEq, Prod.mk.injEq] at h
      rw [← h.1]
      exact ⟨rfl, by simp⟩
  | succ n ih =>
      intro s cs s' h
      simp only [drawChars] at h
      split at h
      · exact absurd h (by simp)
      · rename_i c s1 hd
        split at h
        · exact absurd h (by simp)
        · rename_i cs0 s2 hds
          rw [Option.some.injEq, Prod.mk.injEq] at h
          obtain ⟨ih1, ih2⟩ := ih s1 cs0 s2 hds
          rw [← h.1]
          refine ⟨by simp [ih1], ?_⟩
          intro x hx
          rcases List.mem_cons.mp hx with hx | hx
          · exact hx ▸ drawChar_mem hd
          · exact ih2 x hx

/-- `applyOverrides` preserves the buffer length. -/
theorem applyOverrides_length :
    ∀ (classes : List (List Char)) (pw : List Char) (pos : Nat)
      (s : List Nat) (pw' : List Char) (s' : List Nat),
      applyOverrides pw pos classes s = some (pw', s') →
      pw'.length = pw.length := by
  intro classes
  induction classes with
  | nil =>
      intro pw pos s pw' s' h
      simp only [applyOverrides, Option.some.injEq, Prod.mk.injEq] at h
      rw [← h.1]
  | cons cl rest ih =>
      intro pw pos s pw' s' h
      simp only [applyOverrides] at h
      split at h
      · exact absurd h (by simp)
      · rename_i c s1 hd
        have := ih (pw.set pos c) (pos + 1) s1 pw' s' h
        simpa using this

/-- `applyOverrides` only writes characters of the given class alphabets:
membership in any superset `cs` is preserved. -/
theorem applyOverrides_mem {cs : List Char} :
    ∀ (classes : List (List Char)) (pw : List Char) (pos : Nat)
      (s : List Nat) (pw' : List Char) (s' : List Nat),
      (∀ c ∈ pw, c ∈ cs) → (∀ cl ∈ classes, ∀ c ∈ cl, c ∈ cs) →
      applyOverrides pw pos classes s = some (pw', s') →
      ∀ c ∈ pw', c ∈ cs := by
  intro classes
  induction classes with
  | nil =>
      intro pw pos s pw' s' hpw _ h
      simp only [applyOverrides, Option.some.injEq, Prod.mk.injEq] at h
      rw [← h.1]
      exact hpw
  | cons cl rest ih =>
      intro pw pos s pw' s' hpw hcls h
      simp only [applyOverrides] at h
      split at h
      · exact absurd h (by simp)
      · rename_i c s1 hd
        refine ih (pw.set pos c) (pos + 1) s1 pw' s' ?_ ?_ h
        · intro x hx
          rcases List.mem_or_eq_of_mem_set hx with hx | hx
          · exact hpw x hx
          · exact hx ▸ hcls cl (List.mem_cons_self cl rest) c
              (drawChar_mem hd)
        · intro cl' hcl' x hx
          exact hcls cl' (List.mem_cons_of_mem cl hcl') x hx

/-- `applyOverrides` never touches positions below its cursor. -/
theorem applyOverrides_below :
    ∀ (classes : List (List Char)) (pw : List Char) (pos : Nat)
      (s : List Nat) (pw' : List Char) (s' : List Nat),
      applyOverrides pw pos classes s = some (pw', s') →
      ∀ k, k < pos → pw'[k]? = pw[k]? := by
  intro classes
  induction classes with
  | nil =>
      intro pw pos s pw' s' h k _
      simp only [applyOverrides, Option.some.injEq, Prod.mk.injEq] at h
      rw [← h.1]
  | cons cl rest ih =>
      intro pw pos s pw' s' h k hk
      simp only [applyOverrides] at h
      split at h
      · exact absurd h (by simp)
      · rename_i c s1 hd
        rw [ih (pw.set pos c) (pos + 1) s1 pw' s' h k (by omega)]
        exact List.getElem?_set_ne (by omega)

/-- Coverage: after `applyOverrides`, every listed class has a character
in the buffer (all written positions stay in bounds). -/
theorem applyOverrides_cover :
    ∀ (classes : List (List Char)) (pw : List Char) (pos : Nat)
      (s : List Nat) (pw' : List Char) (s' : List Nat),
      pos + classes.length ≤ pw.length →
      applyOverrides pw pos classes s = some (pw', s') →
      ∀ cl ∈ classes, ∃ c ∈ pw', c ∈ cl := by
  intro classes
  induction classes with
  | nil => intro pw pos s pw' s' _ _ cl hcl; simp at hcl
  | cons cl0 rest ih =>
      intro pw pos s pw' s' hle h cl hcl
      simp only [applyOverrides] at h
      split at h
      · exact absurd h (by simp)
      · rename_i c s1 hd
        rcases List.mem_cons.mp hcl with hcl | hcl
        · have hpos : pos < pw.length := by
            simp only [List.length_cons] at hle; omega
          have hget : pw'[pos]? = some c := by
            rw [applyOverrides_below rest (pw.set pos c) (pos + 1) s1 pw'
              s' h pos (by omega)]
            rw [List.getElem?_set_self (by simpa using hpos)]
          exact ⟨c, List.getElem?_mem hget, hcl ▸ drawChar_mem hd⟩
        · refine ih (pw.set pos c) (pos + 1) s1 pw' s' ?_ h cl hcl
          simp only [List.length_cons] at hle
          simp only [List.length_set]
          omega

/-- Replacing the `j`-th element and moving it to the front is a
permutation with the new element put in its place. -/
theorem cons_set_perm {b x : Char} :
    ∀ (t : List Char) (j : Nat), t[j]? = some b →
      (b :: t.set j x).Perm (x :: t) := by
  intro t
  induction t with
  | nil => intro j h; simp at h
  | cons c tt ih =>
      intro j h
      cases j with
      | zero =>
          simp only [List.getElem?_cons_zero, Option.some.injEq] at h
          rw [h, List.set_cons_zero]
          exact List.Perm.swap x b tt
      | succ j =>
          simp only [List.getElem?_cons_succ] at h
          rw [List.set_cons_succ]
          refine List.Perm.trans (List.Perm.swap c b (tt.set j x)) ?_
          refine List.Perm.trans (List.Perm.cons c (ih j h)) ?_
          exact List.Perm.swap x c tt

/-- The double-set swap is a permutation of the list. -/
theorem set_set_perm {a b : Char} :
    ∀ (l : List Char) (i j : Nat), l[i]? = some a → l[j]? = some b →
      ((l.set i b).set j a).Perm l := by
  intro l
  induction l with
  | nil => intro i j hi _; simp at hi
  | cons x t ih =>
      intro i j hi hj
      cases i with
      | zero =>
          simp only [List.getElem?_cons_zero, Option.some.injEq] at hi
          cases j with
          | zero =>
              simp only [List.getElem?_cons_zero, Option.some.injEq] at hj
              rw [List.set_cons_zero, List.set_cons_zero, hi]
          | succ j =>
              simp only [List.getElem?_cons_succ] at hj
              rw [List.set_cons_zero, List.set_cons_succ, ← hi]
              exact cons_set_perm t j hj
      | succ i =>
          simp only [List.getElem?_cons_succ] at hi
          cases j with
          | zero =>
              simp only [List.getElem?_cons_zero, Option.some.injEq] at hj
              rw [List.set_cons_succ, List.set_cons_zero, hj]
              exact cons_set_perm t i hi
          | succ j =>
              simp only [List.getElem?_cons_succ] at hj
              rw [List.set_cons_succ, List.set_cons_succ]
              exact List.Perm.cons x (ih i j hi hj)

/-- The Fisher-Yates swap step permutes the buffer. -/
theorem listSwap_perm (l : List Char) (i j : Nat) :
    (listSwap l i j).Perm l := by
  unfold listSwap
  cases hi : l[i]? with
  | none => exact List.Perm.refl l
  | some a =>
      cases hj : l[j]? with
      | none => exact List.Perm.refl l
      | some b => exact set_set_perm l i j hi hj

/-- The whole Fisher-Yates loop permutes the buffer. -/
theorem shuffleGo_perm :
    ∀ (i : Nat) (l : List Char) (s : List Nat) (l' : List Char)
      (s' : List Nat), shuffleGo l i s = some (l', s') → l'.Perm l := by
  intro i
  induction i with
  | zero =>
      intro l s l' s' h
      simp only [shuffleGo, Option.some.injEq, Prod.mk.injEq] at h
      rw [← h.1]
  | succ i ih =>
      intro l s l' s' h
      simp only [shuffleGo] at h
      split at h
      · exact absurd h (by simp)
      · rename_i r s1 hg
        exact (ih (listSwap l (i + 1) r) s1 l' s' h).trans
          (listSwap_perm l (i + 1) r)

/-- Enabled class alphabets are contained in the charset. -/
theorem enabledClasses_sub (o : PasswordOptions) :
    ∀ cl ∈ enabledClasses o, ∀ c ∈ cl, c ∈ charsetOf o := by
  by_cases hu : o.includeUppercase = true <;>
    by_cases hl : o.includeLowercase = true <;>
      by_cases hn : o.includeNumbers = true <;>
        by_cases hs : o.includeSymbols = true <;>
          simp_all [enabledClasses, charsetOf]

/-- There are at most four enabled classes. -/
theorem enabledClasses_length_le (o : PasswordOptions) :
    (enabledClasses o).length ≤ 4 := by
  unfold enabledClasses
  split <;> split <;> split <;> split <;> decide

/-- The enabled class alphabet of each set flag is listed. -/
theorem mem_enabledClasses (o : PasswordOptions) :
    (o.includeUppercase = true → UPPERCASE ∈ enabledClasses o) ∧
    (o.includeLowercase = true → LOWERCASE ∈ enabledClasses o) ∧
    (o.includeNumbers = true → NUMBERS ∈ enabledClasses o) ∧
    (o.includeSymbols = true → SYMBOLS ∈ enabledClasses o) := by
  refine ⟨fun h => ?_, fun h => ?_, fun h => ?_, fun h => ?_⟩ <;>
    simp [enabledClasses, h]

/-- Every charset character belongs to some enabled class alphabet. -/
theorem charset_subset_enabled (o : PasswordOptions) (c : Char)
    (hc : c ∈ charsetOf o) :
    (c ∈ UPPERCASE ∧ o.includeUppercase = true) ∨
    (c ∈ LOWERCASE ∧ o.includeLowercase = true) ∨
    (c ∈ NUMBERS ∧ o.includeNumbers = true) ∨
    (c ∈ SYMBOLS ∧ o.includeSymbols = true) := by
  by_cases hu : o.includeUppercase = true <;>
    by_cases hl : o.includeLowercase = true <;>
      by_cases hn : o.includeNumbers = true <;>
        by_cases hs : o.includeSymbols = true <;>
          simp_all [charsetOf]

/-- The four class alphabets are pairwise disjoint. -/
theorem class_alphabets_disjoint :
    (∀ c ∈ UPPERCASE, ¬ c ∈ LOWERCASE ∧ ¬ c ∈ NUMBERS ∧ ¬ c ∈ SYMBOLS) ∧
    (∀ c ∈ LOWERCASE, ¬ c ∈ UPPERCASE ∧ ¬ c ∈ NUMBERS ∧ ¬ c ∈ SYMBOLS) ∧
    (∀ c ∈ NUMBERS, ¬ c ∈ UPPERCASE ∧ ¬ c ∈ LOWERCASE ∧ ¬ c ∈ SYMBOLS) ∧
    (∀ c ∈ SYMBOLS, ¬ c ∈ UPPERCASE ∧ ¬ c ∈ LOWERCASE ∧ ¬ c ∈ NUMBERS) := by
  decide

/-! ## C6 -/

/-- C6: for every policy with at least one class enabled and length in
`[8, 128]`, a successful synthesis returns a string of exactly `length`
characters, containing at least one character from every enabled class and
no character from any disabled class. -/
theorem c6_synthesis_properties (o : PasswordOptions) (samples : List Nat)
    (pwd : String)
    (hcls : (o.includeUppercase || o.includeLowercase || o.includeNumbers ||
      o.includeSymbols) = true)
    (hlen8 : 8 ≤ o.length) (hlen128 : o.length ≤ 128)
    (hgen : generateSecurePassword o samples = some pwd) :
    pwd.data.length = o.length ∧
    (o.includeUppercase = true → ∃ c ∈ pwd.data, c ∈ UPPERCASE) ∧
    (o.includeLowercase = true → ∃ c ∈ pwd.data, c ∈ LOWERCASE) ∧
    (o.includeNumbers = true → ∃ c ∈ pwd.data, c ∈ NUMBERS) ∧
    (o.includeSymbols = true → ∃ c ∈ pwd.data, c ∈ SYMBOLS) ∧
    (o.includeUppercase = false → ∀ c ∈ pwd.data, ¬ c ∈ UPPERCASE) ∧
    (o.includeLowercase = false → ∀ c ∈ pwd.data, ¬ c ∈ LOWERCASE) ∧
    (o.includeNumbers = false → ∀ c ∈ pwd.data, ¬ c ∈ NUMBERS) ∧
    (o.includeSymbols = false → ∀ c ∈ pwd.data, ¬ c ∈ SYMBOLS) := by
  have hpos : 0 < (charsetOf o).length := charsetOf_length_pos o hcls
  unfold generateSecurePassword at hgen
  rw [if_neg (by omega)] at hgen
  split at hgen
  · exact absurd hgen (by simp)
  · rename_i pw s1 hdc
    split at hgen
    · exact absurd hgen (by simp)
    · rename_i pw2 s2 hao
      split at hgen
      · exact absurd hgen (by simp)
      · rename_i pw3 s3 hsh
        rw [Option.some.injEq] at hgen
        have hdata : pwd.data = pw3 := by rw [← hgen]
        obtain ⟨hlen, hmemc⟩ := drawChars_spec o.length samples pw s1 hdc
        have hlen2 : pw2.length = pw.length :=
          applyOverrides_length (enabledClasses o) pw 0 s1 pw2 s2 hao
        have hperm : pw3.Perm pw2 :=
          shuffleGo_perm (pw2.length - 1) pw2 s2 pw3 s3 hsh
        have hbound : 0 + (enabledClasses o).length ≤ pw.length := by
          have := enabledClasses_length_le o
          omega
        have hcover := applyOverrides_cover (enabledClasses o) pw 0 s1 pw2
          s2 hbound hao
        have hmem2 : ∀ c ∈ pw2, c ∈ charsetOf o :=
          applyOverrides_mem (enabledClasses o) pw 0 s1 pw2 s2 hmemc
            (enabledClasses_sub o) hao
        have hmem3 : ∀ c ∈ pw3, c ∈ charsetOf o := fun c hc =>
          hmem2 c (hperm.mem_iff.mp hc)
        have hcover3 : ∀ cl ∈ enabledClasses o, ∃ c ∈ pw3, c ∈ cl := by
          intro cl hcl
          obtain ⟨c, hc, hccl⟩ := hcover cl hcl
          exact ⟨c, hperm.mem_iff.mpr hc, hccl⟩
        have hnotin : ∀ c ∈ pw3,
            (o.includeUppercase = false → ¬ c ∈ UPPERCASE) ∧
            (o.includeLowercase = false → ¬ c ∈ LOWERCASE) ∧
            (o.includeNumbers = false → ¬ c ∈ NUMBERS) ∧
            (o.includeSymbols = false → ¬ c ∈ SYMBOLS) := by
          intro c hc
          rcases charset_subset_enabled o c (hmem3 c hc) with
            ⟨hm, hf⟩ | ⟨hm, hf⟩ | ⟨hm, hf⟩ | ⟨hm, hf⟩
          · refine ⟨fun hfalse => Bool.noConfusion (hfalse.symm.trans hf),
              fun _ => (class_alphabets_disjoint.1 c hm).1,
              fun _ => (class_alphabets_disjoint.1 c hm).2.1,
              fun _ => (class_alphabets_disjoint.1 c hm).2.2⟩
          · refine ⟨fun _ => (class_alphabets_disjoint.2.1 c hm).1,
              fun hfalse => Bool.noConfusion (hfalse.symm.trans hf),
              fun _ => (class_alphabets_disjoint.2.1 c hm).2.1,
              fun _ => (class_alphabets_disjoint.2.1 c hm).2.2⟩
          · refine ⟨fun _ => (class_alphabets_disjoint.2.2.1 c hm).1,
              fun _ => (class_alphabets_disjoint.2.2.1 c hm).2.1,
              fun hfalse => Bool.noConfusion (hfalse.symm.trans hf),
              fun _ => (class_alphabets_disjoint.2.2.1 c hm).2.2⟩
          · refine ⟨fun _ => (class_alphabets_disjoint.2.2.2 c hm).1,
              fun _ => (class_alphabets_disjoint.2.2.2 c hm).2.1,
              fun _ => (class_alphabets_disjoint.2.2.2 c hm).2.2,
              fun hfalse => Bool.noConfusion (hfalse.symm.trans hf)⟩
        rw [hdata]
        refine ⟨by rw [hperm.length_eq, hlen2, hlen], ?_, ?_, ?_, ?_,
          ?_, ?_, ?_, ?_⟩
        · exact fun h => hcover3 UPPERCASE ((mem_enabledClasses o).1 h)
        · exact fun h => hcover3 LOWERCASE ((mem_enabledClasses o).2.1 h)
        · exact fun h => hcover3 NUMBERS ((mem_enabledClasses o).2.2.1 h)
        · exact fun h => hcover3 SYMBOLS ((mem_enabledClasses o).2.2.2 h)
        · exact fun h c hc => (hnotin c hc).1 h
        · exact fun h c hc => (hnotin c hc).2.1 h
        · exact fun h c hc => (hnotin c hc).2.2.1 h
        · exact fun h c hc => (hnotin c hc).2.2.2 h

/-- Witness for C6: an 8-character synthesis with all classes enabled,
driven by 40 zero samples, yields "a0!AAAAA" with the guaranteed
properties. -/
theorem c6_witness :
    "a0!AAAAA".data.length = 8 ∧
    (∃ c ∈ "a0!AAAAA".data, c ∈ SYMBOLS) ∧
    (∃ c ∈ "a0!AAAAA".data, c ∈ NUMBERS) := by
  have h := c6_synthesis_properties ⟨8, true, true, true, true⟩
    (List.replicate 40 0) "a0!AAAAA" (by decide) (by decide) (by decide)
    (by decide)
  exact ⟨h.1, h.2.2.2.2.1 rfl, h.2.2.2.1 rfl⟩

/-! ## C9 -/

/-- C9 counterexample, refuting both penalty clauses of the claim's
formula.  (i) "Aa!0120120120120" is 16 characters with all four classes
and no repeated triple, and contains the ascending numeric run "012"; the
claim's formula scores it 3, but the source's sequential-run list starts
at "123", misses "012", and the program scores it 4 ("Strong").
(ii) "\n\n\nAa1!xY9#qW5&pZ" repeats the character `\n` three times
consecutively, so the claim's formula scores it 3; but the regex dot in
`/(.)\1{2,}/` does not match line terminators, so the program applies no
repeat penalty and scores it 4 ("Strong"). -/
theorem c9_counterexample :
    ((calculatePasswordStrength "Aa!0120120120120".data).score = 4 ∧
      (calculatePasswordStrength "Aa!0120120120120".data).label = "Strong" ∧
      claimStrengthScore "Aa!0120120120120".data = 3 ∧
      hasAscendingRun "Aa!0120120120120".data = true ∧
      hasSequentialChars "Aa!0120120120120".data = false) ∧
    ((calculatePasswordStrength "\n\n\nAa1!xY9#qW5&pZ".data).score = 4 ∧
      (calculatePasswordStrength
        "\n\n\nAa1!xY9#qW5&pZ".data).label = "Strong" ∧
      claimStrengthScore "\n\n\nAa1!xY9#qW5&pZ".data = 3 ∧
      hasAnyTripleRepeat "\n\n\nAa1!xY9#qW5&pZ".data = true ∧
      hasRepeatingChars "\n\n\nAa1!xY9#qW5&pZ".data = false) := by
  refine ⟨⟨by decide, by decide, by decide, by decide, by decide⟩,
    by decide, by decide, by decide, by decide, by decide⟩

/-- C9 amended: the strength score is the clamp to `[0,4]` of the claim's
components, with the repeat penalty applying only to runs of a character
the regex dot matches (line terminators `\n`, `\r`, U+2028, U+2029 are
exempt) and the sequential penalty taken over the source's fixed run list
(ascending alphabetic runs "abc".."xyz" and numeric runs "123".."789";
"012" is not penalized); the label mapping is 0-1 Weak, 2 Fair, 3 Good,
4 Strong; and every 16-character password with all four classes and no
matched repeats or listed runs scores 4 ("Strong"). -/
theorem c9_strength_formula (p : List Char) :
    (calculatePasswordStrength p).score = codeStrengthScore p ∧
    (calculatePasswordStrength p).label =
      specLabel (codeStrengthScore p) ∧
    (p.length = 16 → varietyCount p = 4 → hasRepeatingChars p = false →
      hasSequentialChars p = false →
      (calculatePasswordStrength p).score = 4 ∧
      (calculatePasswordStrength p).label = "Strong") := by
  have hscore : (calculatePasswordStrength p).score = codeStrengthScore p := by
    simp only [calculatePasswordStrength, codeStrengthScore, specScore,
      strengthScoreRaw]
    split_ifs <;> decide
  have hbounds : 0 ≤ codeStrengthScore p ∧ codeStrengthScore p ≤ 4 := by
    simp only [codeStrengthScore, specScore]
    exact ⟨le_max_left _ _,
      max_le_iff.mpr ⟨by norm_num, min_le_left _ _⟩⟩
  have hlc : ∀ s : Int, 0 ≤ s → s ≤ 4 →
      (strengthLabelColor s).1 = specLabel s := by
    intro s h0 h4
    interval_cases s <;> decide
  have hlabel : (calculatePasswordStrength p).label =
      specLabel (codeStrengthScore p) := by
    have hl0 : (calculatePasswordStrength p).label =
        (strengthLabelColor ((calculatePasswordStrength p).score)).1 := rfl
    rw [hl0, hscore]
    exact hlc _ hbounds.1 hbounds.2
  refine ⟨hscore, hlabel, fun hl hv hrep hseq => ?_⟩
  have h4 : codeStrengthScore p = 4 := by
    simp only [codeStrengthScore, specScore, hl, hv, hrep, hseq]
    decide
  exact ⟨hscore.trans h4, by rw [hlabel, h4]; rfl⟩

/-- Witness for C9: a 16-character password with all four classes and no
repeats or sequential runs scores 4, "Strong". -/
theorem c9_witness :
    (calculatePasswordStrength "aA1!bB2@cC3#dD4$".data).score = 4 ∧
    (calculatePasswordStrength "aA1!bB2@cC3#dD4$".data).label = "Strong" :=
  (c9_strength_formula "aA1!bB2@cC3#dD4$".data).2.2 (by decide) (by decide)
    (by decide) (by decide)

/-! ## Helper lemmas: base64 decoding -/

/-- Dropping a trailing `=` keeps every other character. -/
theorem mem_dropTrailingEq {c : Char} {l : List Char} (hc : c ∈ l)
    (hne : c ≠ '=') : c ∈ dropTrailingEq l := by
  unfold dropTrailingEq
  split
  · rename_i hlast
    have hnil : l ≠ [] := by
      intro h; rw [h] at hlast; simp [List.getLast?] at hlast
    have hl : l.dropLast ++ [l.getLast hnil] = l :=
      List.dropLast_concat_getLast hnil
    have hlast2 : l.getLast hnil = '=' := by
      have := List.getLast?_eq_getLast l hnil
      rw [this] at hlast
      exact (Option.some.injEq _ _ ▸ hlast :)
    rw [← hl] at hc
    rcases List.mem_append.mp hc with h | h
    · exact h
    · rw [List.mem_singleton] at h
      exact absurd (h.trans hlast2) hne
  · exact hc

/-- `atobMain` rejects any sequence containing a non-alphabet character. -/
theorem atobMain_none {c : Char} {d : List Char} (hc : c ∈ d)
    (hs : sextet c = none) : atobMain d = none := by
  unfold atobMain
  split
  · rfl
  · rw [if_pos]
    exact List.any_eq_true.mpr ⟨c, hc, by simp [hs]⟩

/-! ## C7 -/

/-- C7 counterexample: the input "+w" contains `+`, which is outside the
URL-safe alphabet `[A-Za-z0-9_-]`, and decodes to a single byte — fewer
than 12 — yet `base64UrlDecode` succeeds and returns that byte instead of
failing. -/
theorem c7_counterexample :
    base64UrlDecode "+w" = some [251] ∧
    ('+' ∈ "+w".data ∧ ¬ ('+'.isAlphanum ∨ '+' = '-' ∨ '+' = '_')) ∧
    [251].length < 12 := by
  refine ⟨by decide, ⟨by decide, by decide⟩, by decide⟩

/-- C7 amended: `decodeText` either returns bytes or fails; it fails
whenever the input contains a character outside the base64 alphabet
extended by `-`, `_`, `=` and ASCII whitespace.  Characters `+`, `/`, `=`
and whitespace are accepted by the underlying `atob`, and no minimum
decoded length is enforced. -/
theorem c7_invalid_char_fails (s : String) (c : Char) (hc : c ∈ s.data)
    (hw : isAsciiWhitespace c = false) (hs : sextet c = none)
    (hm : c ≠ '-') (hu : c ≠ '_') (he : c ≠ '=') :
    base64UrlDecode s = none := by
  unfold base64UrlDecode atob
  have hstd : stdOfUrl c = c := by simp [stdOfUrl, hm, hu]
  have hmem1 : c ∈ List.map stdOfUrl
      (s.data ++ List.replicate ((4 - s.data.length % 4) % 4) '=') :=
    List.mem_map.mpr ⟨c, List.mem_append_left _ hc, hstd⟩
  have hmemf : c ∈ List.filter (fun x => ¬ isAsciiWhitespace x)
      (List.map stdOfUrl
        (s.data ++ List.replicate ((4 - s.data.length % 4) % 4) '=')) := by
    rw [List.mem_filter]
    exact ⟨hmem1, by simp [hw]⟩
  split
  · exact atobMain_none
      (mem_dropTrailingEq (mem_dropTrailingEq hmemf he) he) hs
  · exact atobMain_none hmemf hs

/-- Witness for C7 amended: "!" fails to decode. -/
theorem c7_witness : base64UrlDecode "!" = none :=
  c7_invalid_char_fails "!" '!' (by decide) (by decide) (by decide)
    (by decide) (by decide) (by decide)

/-! ## Helper lemmas: base64 round trip -/

/-- The character list of a constructed string. -/
theorem data_mk (l : List Char) : (String.mk l).data = l := rfl

/-- Facts about the base64 alphabet character of each sextet value. -/
theorem sextetChar_props : ∀ v : Nat, v < 64 →
    sextet (sextetChar v) = some v ∧
    sextetChar v ≠ '=' ∧
    isAsciiWhitespace (sextetChar v) = false ∧
    urlOfStd (sextetChar v) ≠ '=' ∧
    stdOfUrl (urlOfStd (sextetChar v)) = sextetChar v := by decide

/-- All sextet values of a byte sequence are below 64. -/
theorem encodeSextets_lt :
    ∀ (bytes : List Nat), (∀ b ∈ bytes, b < 256) →
      ∀ v ∈ encodeSextets bytes, v < 64
  | a :: b :: c :: rest, h => by
      intro v hv
      have ha : a < 256 := h a (by simp)
      have hbb : b < 256 := h b (by simp)
      have hcc : c < 256 := h c (by simp)
      simp only [encodeSextets, List.cons_append, List.mem_cons] at hv
      rcases hv with rfl | rfl | rfl | rfl | hv
      · omega
      · omega
      · omega
      · omega
      · exact encodeSextets_lt rest (fun x hx => h x (by simp [hx])) v hv
  | [a, b], h => by
      intro v hv
      have ha : a < 256 := h a (by simp)
      have hbb : b < 256 := h b (by simp)
      simp only [encodeSextets, List.mem_cons] at hv
      rcases hv with rfl | rfl | rfl | hv
      · omega
      · omega
      · omega
      · simp at hv
  | [a], h => by
      intro v hv
      have ha : a < 256 := h a (by simp)
      simp only [encodeSextets, List.mem_cons] at hv
      rcases hv with rfl | rfl | hv
      · omega
      · omega
      · simp at hv
  | [], _ => by intro v hv; simp [encodeSextets] at hv

/-- The sextet sequence never has length 1 mod 4. -/
theorem encodeSextets_mod4 :
    ∀ bytes : List Nat, (encodeSextets bytes).length % 4 ≠ 1
  | a :: b :: c :: rest => by
      simp only [encodeSextets, List.cons_append, List.length_cons]
      have := encodeSextets_mod4 rest
      omega
  | [a, b] => by simp [encodeSextets]
  | [a] => by simp [encodeSextets]
  | [] => by simp [encodeSextets]

/-- Decoding inverts encoding on the sextet level. -/
theorem decodeSextets_encodeSextets :
    ∀ (bytes : List Nat), (∀ b ∈ bytes, b < 256) →
      decodeSextets (encodeSextets bytes) = bytes
  | a :: b :: c :: rest, h => by
      have ha : a < 256 := h a (by simp)
      have hbb : b < 256 := h b (by simp)
      have hcc : c < 256 := h c (by simp)
      simp only [encodeSextets, List.cons_append, decodeSextets]
      rw [decodeSextets_encodeSextets rest (fun x hx => h x (by simp [hx]))]
      simp only [List.cons.injEq]
      refine ⟨?_, ?_, ?_, trivial⟩ <;> omega
  | [a, b], h => by
      have ha : a < 256 := h a (by simp)
      have hbb : b < 256 := h b (by simp)
      simp only [encodeSextets, decodeSextets]
      simp only [List.cons.injEq]
      refine ⟨?_, ?_, trivial⟩ <;> omega
  | [a], h => by
      have ha : a < 256 := h a (by simp)
      simp only [encodeSextets, decodeSextets]
      simp only [List.cons.injEq]
      refine ⟨?_, trivial⟩
      omega
  | [], _ => rfl

/-- Filtering `=` out of a padding run leaves nothing. -/
theorem filter_replicate_eq_nil :
    ∀ k : Nat, List.filter (fun c => c ≠ '=') (List.replicate k '=') = [] := by
  intro k
  induction k with
  | zero => rfl
  | succ k ih => simp [List.replicate_succ, List.filter_cons, ih]

/-- `dropTrailingEq` is the identity on lists without `=`. -/
theorem dropTrailingEq_no_eq {l : List Char} (h : ∀ x ∈ l, x ≠ '=') :
    dropTrailingEq l = l := by
  unfold dropTrailingEq
  split
  · rename_i hlast
    exfalso
    have hnil : l ≠ [] := by
      intro he; rw [he] at hlast; simp [List.getLast?] at hlast
    have := List.getLast?_eq_getLast l hnil
    rw [this, Option.some.injEq] at hlast
    exact h (l.getLast hnil) (List.getLast_mem hnil) hlast
  · rfl

/-- `dropTrailingEq` removes exactly one trailing `=`. -/
theorem dropTrailingEq_concat (l : List Char) :
    dropTrailingEq (l ++ ['=']) = l := by
  unfold dropTrailingEq
  rw [if_pos (List.getLast?_concat l)]
  exact List.dropLast_concat

/-- The character sequence of `base64UrlEncode` is the URL image of the
sextet characters, with the padding stripped. -/
theorem base64UrlEncode_data (bytes : List Nat)
    (hb : ∀ b ∈ bytes, b < 256) :
    (base64UrlEncode bytes).data =
      (encodeSextets bytes).map (fun v => urlOfStd (sextetChar v)) := by
  have hE := encodeSextets_lt bytes hb
  unfold base64UrlEncode btoa
  rw [data_mk, List.map_append, List.map_map, List.map_replicate]
  have h1 : urlOfStd '=' = '=' := by decide
  rw [h1, List.filter_append]
  have h2 : List.filter (fun c => c ≠ '=')
      ((encodeSextets bytes).map (urlOfStd ∘ sextetChar)) =
      (encodeSextets bytes).map (urlOfStd ∘ sextetChar) :=
    List.filter_eq_self.mpr (by
      intro a ha
      rcases List.mem_map.mp ha with ⟨v, hv, rfl⟩
      simp [Function.comp, (sextetChar_props v (hE v hv)).2.2.2.1])
  rw [h2, filter_replicate_eq_nil, List.append_nil]
  rfl

/-- `atob` inverts `btoa` on encoded sextet characters. -/
theorem atob_sextets (bytes : List Nat) (hb : ∀ b ∈ bytes, b < 256) :
    atob ((encodeSextets bytes).map sextetChar ++
      List.replicate ((4 - (encodeSextets bytes).length % 4) % 4) '=') =
      some bytes := by
  have hE := encodeSextets_lt bytes hb
  have hmod := encodeSextets_mod4 bytes
  have hno : ∀ x ∈ (encodeSextets bytes).map sextetChar, x ≠ '=' := by
    intro x hx
    rcases List.mem_map.mp hx with ⟨v, hv, rfl⟩
    exact (sextetChar_props v (hE v hv)).2.1
  unfold atob
  have hfil : List.filter (fun c => ¬ isAsciiWhitespace c)
      ((encodeSextets bytes).map sextetChar ++
        List.replicate ((4 - (encodeSextets bytes).length % 4) % 4) '=') =
      ((encodeSextets bytes).map sextetChar ++
        List.replicate ((4 - (encodeSextets bytes).length % 4) % 4) '=') :=
    List.filter_eq_self.mpr (by
      intro a ha
      rcases List.mem_append.mp ha with ha | ha
      · rcases List.mem_map.mp ha with ⟨v, hv, rfl⟩
        simp [(sextetChar_props v (hE v hv)).2.2.1]
      · rw [List.eq_of_mem_replicate ha]
        decide)
  rw [hfil]
  have hlen : (((encodeSextets bytes).map sextetChar ++
      List.replicate ((4 - (encodeSextets bytes).length % 4) % 4)
        '=').length) % 4 = 0 := by
    rw [List.length_append, List.length_map, List.length_replicate]
    omega
  rw [if_pos hlen]
  have hstrip : dropTrailingEq (dropTrailingEq
      ((encodeSextets bytes).map sextetChar ++
        List.replicate ((4 - (encodeSextets bytes).length % 4) % 4) '=')) =
      (encodeSextets bytes).map sextetChar := by
    have h3 : (encodeSextets bytes).length % 4 = 0 ∨
        (encodeSextets bytes).length % 4 = 2 ∨
        (encodeSextets bytes).length % 4 = 3 := by omega
    rcases h3 with h | h | h
    · rw [h]
      have hrep : List.replicate ((4 - 0) % 4) '=' = ([] : List Char) := rfl
      rw [hrep, List.append_nil, dropTrailingEq_no_eq hno,
        dropTrailingEq_no_eq hno]
    · rw [h]
      have hrep : List.replicate ((4 - 2) % 4) '=' = ['=', '='] := rfl
      rw [hrep]
      have hsplit : List.map sextetChar (encodeSextets bytes) ++ ['=', '='] =
          (List.map sextetChar (encodeSextets bytes) ++ ['=']) ++ ['='] := by
        rw [List.append_assoc]
        rfl
      rw [hsplit, dropTrailingEq_concat, dropTrailingEq_concat]
    · rw [h]
      have hrep : List.replicate ((4 - 3) % 4) '=' = ['='] := rfl
      rw [hrep, dropTrailingEq_concat, dropTrailingEq_no_eq hno]
  rw [hstrip]
  unfold atobMain
  rw [List.length_map, if_neg hmod]
  have hany : (((encodeSextets bytes).map sextetChar).any
      fun c => (sextet c).isNone) = false :=
    List.any_eq_false.mpr (by
      intro x hx
      rcases List.mem_map.mp hx with ⟨v, hv, rfl⟩
      simp [(sextetChar_props v (hE v hv)).1])
  rw [hany]
  simp only [Bool.false_eq_true, if_false]
  rw [List.map_map]
  have hid : (encodeSextets bytes).map
      ((fun c => (sextet c).getD 0) ∘ sextetChar) = encodeSextets bytes := by
    have hpt : ∀ v ∈ encodeSextets bytes,
        ((fun c => (sextet c).getD 0) ∘ sextetChar) v = id v := by
      intro v hv
      simp [Function.comp, (sextetChar_props v (hE v hv)).1]
    rw [List.map_congr_left hpt, List.map_id]
  rw [hid, decodeSextets_encodeSextets bytes hb]

/-- `base64UrlDecode` inverts `base64UrlEncode` on byte sequences. -/
theorem base64_roundtrip (bytes : List Nat) (hb : ∀ b ∈ bytes, b < 256) :
    base64UrlDecode (base64UrlEncode bytes) = some bytes := by
  have hE := encodeSextets_lt bytes hb
  unfold base64UrlDecode
  rw [base64UrlEncode_data bytes hb]
  rw [List.length_map, List.map_append, List.map_map, List.map_replicate]
  have h1 : stdOfUrl '=' = '=' := by decide
  rw [h1]
  have h2 : (encodeSextets bytes).map
      (stdOfUrl ∘ fun v => urlOfStd (sextetChar v)) =
      (encodeSextets bytes).map sextetChar :=
    List.map_congr_left (fun v hv =>
      (sextetChar_props v (hE v hv)).2.2.2.2)
  rw [h2]
  exact atob_sextets bytes hb

/-! ## C10 -/

/-- C10: the client-side envelope framing is a round trip: combining a
12-byte IV with any ciphertext, text-encoding, text-decoding and
separating returns exactly the original IV and ciphertext. -/
theorem c10_envelope_roundtrip (iv c : List Nat) (hiv : iv.length = 12)
    (h1 : ∀ b ∈ iv, b < 256) (h2 : ∀ b ∈ c, b < 256) :
    base64UrlDecode (base64UrlEncode (combineIvAndCiphertext iv c)) =
      some (combineIvAndCiphertext iv c) ∧
    separateIvAndCiphertext (combineIvAndCiphertext iv c) = (iv, c) := by
  constructor
  · refine base64_roundtrip (combineIvAndCiphertext iv c) ?_
    intro b hb
    rcases List.mem_append.mp hb with hb | hb
    · exact h1 b hb
    · exact h2 b hb
  · unfold separateIvAndCiphertext combineIvAndCiphertext
    rw [List.take_left' hiv, List.drop_left' hiv]

/-- Witness for C10: a concrete 12-byte IV and 4-byte ciphertext survive
the combine-encode-decode-separate pipeline. -/
theorem c10_witness :
    base64UrlDecode (base64UrlEncode (combineIvAndCiphertext
        [0, 1, 2, 3, 4, 5, 6, 7, 8, 9, 10, 11] [252, 253, 254, 255])) =
      some (combineIvAndCiphertext
        [0, 1, 2, 3, 4, 5, 6, 7, 8, 9, 10, 11] [252, 253, 254, 255]) ∧
    separateIvAndCiphertext (combineIvAndCiphertext
        [0, 1, 2, 3, 4, 5, 6, 7, 8, 9, 10, 11] [252, 253, 254, 255]) =
      ([0, 1, 2, 3, 4, 5, 6, 7, 8, 9, 10, 11], [252, 253, 254, 255]) :=
  c10_envelope_roundtrip [0, 1, 2, 3, 4, 5, 6, 7, 8, 9, 10, 11]
    [252, 253, 254, 255] (by decide) (by decide) (by decide)

end PassShare
